import Mathlib

/-!
Verification development for the qilin MCP server framework.

Shallow embedding of the routing tree (`resourceNode.matching` / `addRoute`),
the change pipelines (`resourceChangeContext.Publish`, `uriMatches`, the
subscriber `Publish` channel sends), the resource-list-change subscription
manager `Health`, protocol version negotiation, the request dispatcher entry
(`handler.Handle`), `handler.handleToolsCall`, and the Streamable HTTP mux
routing table.

Go strings are Lean `String`; Go `time.Time` and `time.Duration` are `Int`
instants and spans (`a.After(b)` is `a > b`, `a.Sub(b)` is `a - b`); Go maps
are association lists where insertion appends and lookup takes the first hit
(one linearization of the unspecified Go map iteration order); fallible Go
returns are `Option` / `Except`; a Go nil-pointer dereference is modelled as
an explicit outcome.
-/

namespace Qilin

/-! ## Go string helpers

`strings.Split(s, "/")`, `strings.TrimPrefix` / `strings.TrimSuffix` for the
one-character prefixes and suffixes the source uses ("/", "{", "}"), and
`strings.HasPrefix(s, "{")` / `strings.HasSuffix(s, "}")`, written over the
character list of the string. -/

/-- Go `strings.Split(s, "/")` on the character list: splits at every slash and
never returns the empty list (Go `strings.Split` with a non-empty separator
returns at least one element). -/
def splitSlashChars : List Char → List (List Char)
  | [] => [[]]
  | c :: rest =>
    let r := splitSlashChars rest
    if c = '/' then [] :: r
    else
      match r with
      | [] => [[c]]
      | h :: t => (c :: h) :: t

/-- Go `strings.Split(s, "/")`. -/
def stringsSplitSlash (s : String) : List String :=
  (splitSlashChars s.data).map (fun l => String.mk l)

/-- Go `strings.TrimPrefix(s, "/")`: removes one leading slash if present. -/
def trimLeadSlash (s : String) : String :=
  match s.data with
  | '/' :: rest => String.mk rest
  | _ => s

/-- The path segments used by `resourceNode.matching` and
`resourceNode.addRoute`: `strings.Split(strings.TrimPrefix(uri.Path, "/"), "/")`. -/
def pathSegs (p : String) : List String :=
  stringsSplitSlash (trimLeadSlash p)

/-- Go `strings.HasPrefix(s, "{")`. -/
def hasLeadBrace (s : String) : Bool :=
  match s.data with
  | '{' :: _ => true
  | _ => false

/-- Go `strings.HasSuffix(s, "}")`. -/
def hasTailBrace (s : String) : Bool :=
  match s.data.getLast? with
  | some c => c = '}'
  | none => false

/-- A path segment of the form `{NAME}`: `strings.HasPrefix(s, "{") &&
strings.HasSuffix(s, "}")`, the wildcard test used throughout the source. -/
def segIsWild (s : String) : Bool :=
  hasLeadBrace s && hasTailBrace s

/-- Go `strings.TrimSuffix(s, "}")`. -/
def trimTailBrace (s : String) : String :=
  if hasTailBrace s then String.mk s.data.dropLast else s

/-- Go `strings.TrimPrefix(s, "{")`. -/
def trimLeadBrace (s : String) : String :=
  if hasLeadBrace s then String.mk (s.data.drop 1) else s

/-- Go `strings.TrimPrefix(strings.TrimSuffix(segment, "}"), "{")`: the parameter
name recorded for a wildcard segment in `resourceNode.getOrCreateChild`. -/
def segParamName (s : String) : String :=
  trimLeadBrace (trimTailBrace s)

/-- Builds the literal wildcard segment `{n}` from a parameter name. -/
def wrapBrace (n : String) : String :=
  String.mk ('{' :: n.data ++ ['}'])

theorem splitSlashChars_ne_nil (l : List Char) : splitSlashChars l ≠ [] := by
  induction l with
  | nil => simp [splitSlashChars]
  | cons c rest ih =>
    simp only [splitSlashChars]
    by_cases hc : c = '/'
    · simp [hc]
    · simp only [hc, if_false]
      cases h : splitSlashChars rest with
      | nil => exact absurd h ih
      | cons a t => simp

theorem pathSegs_ne_nil (p : String) : pathSegs p ≠ [] := by
  unfold pathSegs stringsSplitSlash
  intro h
  exact splitSlashChars_ne_nil (trimLeadSlash p).data (List.map_eq_nil_iff.mp h)

theorem wrapBrace_data (n : String) :
    (wrapBrace n).data = ('{' :: n.data) ++ ['}'] := by
  simp [wrapBrace]

theorem segIsWild_wrapBrace (n : String) : segIsWild (wrapBrace n) = true := by
  unfold segIsWild hasLeadBrace hasTailBrace
  rw [wrapBrace_data, List.getLast?_concat]
  simp

theorem segParamName_wrapBrace (n : String) : segParamName (wrapBrace n) = n := by
  have h1 : trimTailBrace (wrapBrace n) = String.mk ('{' :: n.data) := by
    unfold trimTailBrace hasTailBrace
    rw [wrapBrace_data, List.getLast?_concat, List.dropLast_concat]
    simp
  unfold segParamName
  rw [h1]
  unfold trimLeadBrace hasLeadBrace
  simp

/-! ## URLs

`net/url.URL` restricted to the fields the embedded code reads: `Scheme`,
`Host`, `Path`. -/

structure URL where
  scheme : String
  host : String
  path : String
deriving DecidableEq, Repr

/-! ## The resource routing tree (`resourceNode`, qilin.go)

`resourceNode` holds a child map, a wildcard flag with its parameter name, a
MIME type and an optional handler. Handlers are abstract (`H`); the Go map of
children is an association list where lookup takes the first hit and insertion
of a fresh key appends. -/

inductive RNode (H : Type) : Type where
  | mk (child : List (String × RNode H)) (wild : Bool) (paramName : String)
       (mimeType : String) (handler : Option H) : RNode H

namespace RNode

def child : RNode H → List (String × RNode H)
  | .mk c _ _ _ _ => c

def wild : RNode H → Bool
  | .mk _ w _ _ _ => w

def paramName : RNode H → String
  | .mk _ _ p _ _ => p

def mimeType : RNode H → String
  | .mk _ _ _ m _ => m

def handler : RNode H → Option H
  | .mk _ _ _ _ h => h

def withChild : RNode H → List (String × RNode H) → RNode H
  | .mk _ w p m h, c => .mk c w p m h

def withHandler : RNode H → Option H → RNode H
  | .mk c w p m _, h => .mk c w p m h

def withMime : RNode H → String → RNode H
  | .mk c w p _ h, m => .mk c w p m h

end RNode

/-- The root node `New` creates: empty child map, no handler. -/
def emptyRNode : RNode H := .mk [] false "" "" none

/-- Go map lookup `child[segment]` on the association list. -/
def lookupChild : List (String × RNode H) → String → Option (RNode H)
  | [], _ => none
  | (k, v) :: rest, key => if k = key then some v else lookupChild rest key

/-- Go map write `child[segment] = node`: replaces the entry if the key is
present, otherwise appends. -/
def setChild : List (String × RNode H) → String → RNode H → List (String × RNode H)
  | [], key, v => [(key, v)]
  | (k, w) :: rest, key, v =>
    if k = key then (key, v) :: rest else (k, w) :: setChild rest key v

/-- The fresh node `getOrCreateChild` builds when the segment is absent: a
wildcard node with the recorded parameter name when the segment is `{NAME}`,
a plain literal node otherwise. -/
def newChildNode (segment : String) : RNode H :=
  if segIsWild segment then .mk [] true (segParamName segment) "" none
  else .mk [] false "" "" none

/-- Source `resourceNode.getOrCreateChild`: the child for the segment, existing or
freshly created. -/
def getOrCreateChild (n : RNode H) (segment : String) : RNode H :=
  match lookupChild n.child segment with
  | some node => node
  | none => newChildNode segment

/-- The functional image of Go mutating the child obtained from
`getOrCreateChild` in place: the child map afterwards binds the segment to the
transformed child. -/
def updateChild (n : RNode H) (segment : String) (f : RNode H → RNode H) : RNode H :=
  n.withChild (setChild n.child segment (f (getOrCreateChild n segment)))

/-- The segment loop of `resourceNode.addRoute` together with the final
assignments: walks `getOrCreateChild` along the segments and, on the final
node, sets the handler when it is non-nil and the MIME type when it is
non-empty. -/
def addSegs (n : RNode H) : List String → Option H → String → RNode H
  | [], handler, mimeType =>
    let n1 := match handler with
      | some _ => n.withHandler handler
      | none => n
    if mimeType = "" then n1 else n1.withMime mimeType
  | seg :: rest, handler, mimeType =>
    updateChild n seg (fun c => addSegs c rest handler mimeType)

/-- Source `resourceNode.addRoute`: scheme node, host node, then the path segments;
the `len(path) == 0` branch is kept although `strings.Split` never returns an
empty slice (`pathSegs_ne_nil`). -/
def addRoute (n : RNode H) (uri : URL) (handler : Option H) (mimeType : String) : RNode H :=
  let path := pathSegs uri.path
  if path = [] then
    updateChild n uri.scheme (fun sn =>
      updateChild sn uri.host (fun hn =>
        match handler with
        | some _ => hn.withHandler handler
        | none => hn))
  else
    updateChild n uri.scheme (fun sn =>
      updateChild sn uri.host (fun hn => addSegs hn path handler mimeType))

/-- The errors `resourceNode.matching` reports (the source formats them with
`fmt.Errorf`; they are kept structured here). -/
inductive MatchErr where
  | schemaNotFound (schema : String)
  | hostNotFound (host : String)
  | hostFoundNotRegistered
  | pathNotFound (p : String)
  | pathFoundNotRegistered
deriving DecidableEq, Repr

/-- Path-parameter map: Go `map[string]string` as an association list. -/
def mapSet : List (String × String) → String → String → List (String × String)
  | [], key, v => [(key, v)]
  | (k, w) :: rest, key, v =>
    if k = key then (key, v) :: rest else (k, w) :: mapSet rest key v

def mapGet : List (String × String) → String → Option String
  | [], _ => none
  | (k, v) :: rest, key => if k = key then some v else mapGet rest key

/-- The first wildcard entry of a child map: the `for _, v := range child`
search in `resourceNode.matching`, linearized in insertion order. -/
def firstWild : List (String × RNode H) → Option (RNode H)
  | [] => none
  | (_, v) :: rest => if v.wild then some v else firstWild rest

/-- The `for _, p := range path` loop of `resourceNode.matching`: literal
child first; on a miss, the first wildcard sibling, binding its parameter
name to the observed segment; error when neither exists. -/
def matchingLoop (r : RNode H) (params : List (String × String)) :
    List String → Except MatchErr (RNode H × List (String × String))
  | [] => .ok (r, params)
  | p :: rest =>
    match lookupChild r.child p with
    | some r2 => matchingLoop r2 params rest
    | none =>
      match firstWild r.child with
      | some v => matchingLoop v (mapSet params v.paramName p) rest
      | none => .error (.pathNotFound p)

/-- Source `resourceNode.matching`: scheme level, host level, the path loop, and the
final non-nil-handler check. The `len(path) == 0` branch is kept although it
is unreachable (`pathSegs_ne_nil`). -/
def matching (n : RNode H) (uri : URL) :
    Except MatchErr (RNode H × List (String × String)) :=
  let path := pathSegs uri.path
  match lookupChild n.child uri.scheme with
  | none => .error (.schemaNotFound uri.scheme)
  | some r1 =>
    match lookupChild r1.child uri.host with
    | none => .error (.hostNotFound uri.host)
    | some r2 =>
      if path = [] then
        match r2.handler with
        | some _ => .ok (r2, [])
        | none => .error .hostFoundNotRegistered
      else
        match matchingLoop r2 [] path with
        | .error e => .error e
        | .ok (rf, params) =>
          match rf.handler with
          | some _ => .ok (rf, params)
          | none => .error .pathFoundNotRegistered

/-! ## Literal walks through the tree -/

/-- Walks the tree along literal child-map lookups only. -/
def nodeAtKeys (n : RNode H) : List String → Option (RNode H)
  | [] => some n
  | k :: rest =>
    match lookupChild n.child k with
    | some c => nodeAtKeys c rest
    | none => none

/-- The handler found at the end of a literal walk. -/
def handlerAtKeys (n : RNode H) (ks : List String) : Option H :=
  (nodeAtKeys n ks).bind RNode.handler

/-- The full key path of a URI in the tree: scheme, host, path segments. -/
def keysOf (uri : URL) : List String :=
  uri.scheme :: uri.host :: pathSegs uri.path

/-- A sequence of `addRoute` registrations applied in order. -/
def insertAll (t : RNode H) (l : List (URL × Option H × String)) : RNode H :=
  l.foldl (fun acc e => addRoute acc e.1 e.2.1 e.2.2) t

theorem lookupChild_setChild_self (l : List (String × RNode H)) (k : String) (v : RNode H) :
    lookupChild (setChild l k v) k = some v := by
  induction l with
  | nil => simp [setChild, lookupChild]
  | cons e rest ih =>
    obtain ⟨k0, v0⟩ := e
    by_cases h : k0 = k
    · simp [setChild, h, lookupChild]
    · simp [setChild, h, lookupChild, ih]

theorem lookupChild_setChild_ne (l : List (String × RNode H)) {k k' : String}
    (h : k' ≠ k) (v : RNode H) :
    lookupChild (setChild l k v) k' = lookupChild l k' := by
  have h2 : ¬ k = k' := fun he => h he.symm
  induction l with
  | nil => simp [setChild, lookupChild, h2]
  | cons e rest ih =>
    obtain ⟨k0, v0⟩ := e
    by_cases h0 : k0 = k
    · subst h0
      simp [setChild, lookupChild, h2]
    · simp only [setChild, h0, if_false, lookupChild]
      by_cases h1 : k0 = k'
      · simp [h1]
      · simp [h1, ih]

theorem withChild_handler (n : RNode H) (c : List (String × RNode H)) :
    (n.withChild c).handler = n.handler := by
  cases n; rfl

theorem withChild_child (n : RNode H) (c : List (String × RNode H)) :
    (n.withChild c).child = c := by
  cases n; rfl

theorem updateChild_child (n : RNode H) (s : String) (f : RNode H → RNode H) :
    (updateChild n s f).child = setChild n.child s (f (getOrCreateChild n s)) := by
  simp [updateChild, withChild_child]

theorem updateChild_handler (n : RNode H) (s : String) (f : RNode H → RNode H) :
    (updateChild n s f).handler = n.handler := by
  simp [updateChild, withChild_handler]

theorem addSegs_nil_handler_some (n : RNode H) (hd : H) (m : String) :
    (addSegs n [] (some hd) m).handler = some hd := by
  cases n
  simp only [addSegs]
  by_cases hm : m = "" <;> simp [hm, RNode.withHandler, RNode.withMime, RNode.handler]

theorem addSegs_nil_handler_none (n : RNode H) (m : String) :
    (addSegs n [] none m).handler = n.handler := by
  cases n
  simp only [addSegs]
  by_cases hm : m = "" <;> simp [hm, RNode.withMime, RNode.handler]

theorem addSegs_nil_child (n : RNode H) (h : Option H) (m : String) :
    (addSegs n [] h m).child = n.child := by
  cases n
  cases h <;> simp only [addSegs] <;>
    (by_cases hm : m = "" <;>
      simp [hm, RNode.withHandler, RNode.withMime, RNode.child])

theorem addSegs_cons (n : RNode H) (seg : String) (rest : List String)
    (h : Option H) (m : String) :
    addSegs n (seg :: rest) h m = updateChild n seg (fun c => addSegs c rest h m) :=
  rfl

/-- Inserting with a handler makes it the handler found at the end of the
literal walk along the inserted keys. -/
theorem handlerAtKeys_addSegs_self (ks : List String) (n : RNode H) (hd : H) (m : String) :
    handlerAtKeys (addSegs n ks (some hd) m) ks = some hd := by
  induction ks generalizing n with
  | nil =>
    simp [handlerAtKeys, nodeAtKeys, Option.bind, addSegs_nil_handler_some]
  | cons k rest ih =>
    simp only [handlerAtKeys, nodeAtKeys, addSegs_cons, updateChild_child,
      lookupChild_setChild_self]
    exact ih (getOrCreateChild n k)

/-- Inserting along a different key path preserves the handler found at the
end of a literal walk. -/
theorem handlerAtKeys_addSegs_frame (ks : List String) (n : RNode H)
    (ks' : List String) (hne : ks' ≠ ks) {hd : H}
    (hat : handlerAtKeys n ks = some hd) (hh : Option H) (m : String) :
    handlerAtKeys (addSegs n ks' hh m) ks = some hd := by
  induction ks generalizing n ks' with
  | nil =>
    cases ks' with
    | nil => exact absurd rfl hne
    | cons k' rest' =>
      simp only [handlerAtKeys, nodeAtKeys, Option.some_bind] at hat ⊢
      rw [addSegs_cons, updateChild_handler]
      exact hat
  | cons k rest ih =>
    simp only [handlerAtKeys, nodeAtKeys] at hat
    cases hlk : lookupChild n.child k with
    | none => rw [hlk] at hat; simp at hat
    | some c =>
      rw [hlk] at hat
      cases ks' with
      | nil =>
        simp only [handlerAtKeys, nodeAtKeys, addSegs_nil_child, hlk]
        exact hat
      | cons k' rest' =>
        by_cases hk : k' = k
        · subst hk
          have hrest : rest' ≠ rest := by
            intro h; exact hne (by rw [h])
          simp only [handlerAtKeys, nodeAtKeys, addSegs_cons, updateChild_child,
            lookupChild_setChild_self, getOrCreateChild, hlk]
          exact ih c rest' hrest hat
        · simp only [handlerAtKeys, nodeAtKeys, addSegs_cons, updateChild_child]
          rw [lookupChild_setChild_ne n.child (fun he => hk he.symm)]
          · rw [hlk]
            exact hat

/-- Source `addRoute` is the uniform insertion along scheme, host and path segments;
the empty-path branch of the source is unreachable. -/
theorem addRoute_eq_addSegs (n : RNode H) (uri : URL) (h : Option H) (m : String) :
    addRoute n uri h m = addSegs n (keysOf uri) h m := by
  simp only [addRoute, keysOf, addSegs_cons, if_neg (pathSegs_ne_nil uri.path)]

/-- Registrations along other key paths preserve the handler found at the end
of a literal walk. -/
theorem handlerAtKeys_insertAll_frame (l : List (URL × Option H × String))
    (t : RNode H) (ks : List String) {hd : H}
    (hat : handlerAtKeys t ks = some hd)
    (hdisj : ∀ e ∈ l, keysOf e.1 ≠ ks) :
    handlerAtKeys (insertAll t l) ks = some hd := by
  induction l generalizing t with
  | nil => exact hat
  | cons e rest ih =>
    simp only [insertAll, List.foldl_cons] at *
    refine ih (addRoute t e.1 e.2.1 e.2.2) ?_ (fun x hx => hdisj x (List.mem_cons_of_mem _ hx))
    rw [addRoute_eq_addSegs]
    exact handlerAtKeys_addSegs_frame ks t (keysOf e.1)
      (hdisj e (List.mem_cons_self _ _)) hat e.2.1 e.2.2

/-- When every step of the walk hits a literal child, the matching loop follows
it and leaves the parameter map untouched. -/
theorem matchingLoop_literal (segs : List String) (r fin : RNode H)
    (params : List (String × String))
    (hwalk : nodeAtKeys r segs = some fin) :
    matchingLoop r params segs = .ok (fin, params) := by
  induction segs generalizing r with
  | nil =>
    simp only [nodeAtKeys, Option.some_inj] at hwalk
    simp [matchingLoop, hwalk]
  | cons p rest ih =>
    simp only [nodeAtKeys] at hwalk
    cases hlk : lookupChild r.child p with
    | none => rw [hlk] at hwalk; simp at hwalk
    | some r2 =>
      rw [hlk] at hwalk
      simp only [matchingLoop, hlk]
      exact ih r2 hwalk

theorem nodeAtKeys_cons (n : RNode H) (k : String) (rest : List String) :
    nodeAtKeys n (k :: rest) = (lookupChild n.child k).bind (fun c => nodeAtKeys c rest) := by
  cases h : lookupChild n.child k <;> simp [nodeAtKeys, h]

/-- A URI whose full key path exists literally in the tree with a handler is
matched to that node with an empty parameter map. -/
theorem matching_ok_of_nodeAtKeys (t : RNode H) (uri : URL) (fin : RNode H)
    {hd : H} (hwalk : nodeAtKeys t (keysOf uri) = some fin)
    (hh : fin.handler = some hd) :
    matching t uri = .ok (fin, []) := by
  simp only [keysOf, nodeAtKeys_cons] at hwalk
  cases h1 : lookupChild t.child uri.scheme with
  | none => rw [h1] at hwalk; simp at hwalk
  | some r1 =>
    rw [h1] at hwalk
    simp only [Option.some_bind] at hwalk
    cases h2 : lookupChild r1.child uri.host with
    | none => rw [h2] at hwalk; simp at hwalk
    | some r2 =>
      rw [h2] at hwalk
      simp only [Option.some_bind] at hwalk
      simp only [matching, h1, h2, if_neg (pathSegs_ne_nil uri.path)]
      rw [matchingLoop_literal (pathSegs uri.path) r2 fin [] hwalk]
      simp [hh]

/-! ## C5: insert then match -/

/-- C5: for every URI `U` inserted into the routing tree with a non-null
handler `H` — in any position of a registration sequence whose later entries
never target the key path of `U` again — a subsequent `Match(U)` on the same
concrete URI returns exactly that handler together with an empty
path-parameter map. -/
theorem c5_insert_then_match {H : Type} (t0 : RNode H)
    (pre post : List (URL × Option H × String)) (U : URL) (hd : H) (m : String)
    (hpost : ∀ e ∈ post, keysOf e.1 ≠ keysOf U) :
    ∃ r, matching (insertAll (addRoute (insertAll t0 pre) U (some hd) m) post) U =
        .ok (r, []) ∧ r.handler = some hd := by
  have h1 : handlerAtKeys (addRoute (insertAll t0 pre) U (some hd) m) (keysOf U) = some hd := by
    rw [addRoute_eq_addSegs]
    exact handlerAtKeys_addSegs_self (keysOf U) (insertAll t0 pre) hd m
  have h2 : handlerAtKeys (insertAll (addRoute (insertAll t0 pre) U (some hd) m) post)
      (keysOf U) = some hd :=
    handlerAtKeys_insertAll_frame post _ (keysOf U) h1 hpost
  unfold handlerAtKeys at h2
  cases hwalk : nodeAtKeys (insertAll (addRoute (insertAll t0 pre) U (some hd) m) post)
      (keysOf U) with
  | none => rw [hwalk] at h2; simp at h2
  | some fin =>
    rw [hwalk] at h2
    simp only [Option.some_bind] at h2
    exact ⟨fin, matching_ok_of_nodeAtKeys _ U fin hwalk h2, h2⟩

/-- Witness for C5 at a concrete registration sequence: `ex://h/a/b` is
registered with handler `3` between two unrelated registrations; matching it
returns handler `3` and no parameters. -/
theorem c5_insert_then_match_witness :
    (∀ e ∈ [((⟨"ex", "h", "/a/c"⟩ : URL), (some 9 : Option Nat), "")],
        keysOf e.1 ≠ keysOf (⟨"ex", "h", "/a/b"⟩ : URL)) ∧
    ∃ r, matching (insertAll
          (addRoute (insertAll (emptyRNode (H := Nat))
            [((⟨"file", "x", "/a"⟩ : URL), (some 7 : Option Nat), "")])
            (⟨"ex", "h", "/a/b"⟩ : URL) (some 3) "")
          [((⟨"ex", "h", "/a/c"⟩ : URL), (some 9 : Option Nat), "")])
        (⟨"ex", "h", "/a/b"⟩ : URL) = .ok (r, []) ∧ r.handler = some 3 :=
  ⟨by decide,
   c5_insert_then_match (emptyRNode (H := Nat))
     [((⟨"file", "x", "/a"⟩ : URL), (some 7 : Option Nat), "")]
     [((⟨"ex", "h", "/a/c"⟩ : URL), (some 9 : Option Nat), "")]
     (⟨"ex", "h", "/a/b"⟩ : URL) 3 "" (by decide)⟩

/-! ## C6: wildcard matching binds the parameter -/

theorem nodeAtKeys_append (xs ys : List String) (r : RNode H) :
    nodeAtKeys r (xs ++ ys) = (nodeAtKeys r xs).bind (fun m2 => nodeAtKeys m2 ys) := by
  induction xs generalizing r with
  | nil => simp [nodeAtKeys]
  | cons k rest ih =>
    simp only [List.cons_append, nodeAtKeys_cons, ih]
    cases lookupChild r.child k <;> simp

/-- The matching loop follows an existing literal walk through a prefix of the
path and continues from where it ends. -/
theorem matchingLoop_append_literal (xs : List String) (r mid : RNode H)
    (params : List (String × String)) (h : nodeAtKeys r xs = some mid)
    (ys : List String) :
    matchingLoop r params (xs ++ ys) = matchingLoop mid params ys := by
  induction xs generalizing r with
  | nil =>
    simp only [nodeAtKeys, Option.some_inj] at h
    simp [h]
  | cons p rest ih =>
    simp only [nodeAtKeys] at h
    cases hlk : lookupChild r.child p with
    | none => rw [hlk] at h; simp at h
    | some r2 =>
      rw [hlk] at h
      simp only [List.cons_append, matchingLoop, hlk]
      exact ih r2 h

/-- C6 counterexample input: two wildcard patterns registered under the same
parent, `ex://h/{a}` with handler 1 and then `ex://h/{b}` with handler 2. -/
def c6Tree : RNode Nat :=
  addRoute (addRoute emptyRNode ⟨"ex", "h", "/{a}"⟩ (some 1) "")
    ⟨"ex", "h", "/{b}"⟩ (some 2) ""

/-- C6 is false as stated: `ex://h/{b}` is registered with a handler and
contains the wildcard `{b}`; `ex://h/7` is that pattern with `{b}` replaced by
the non-empty, non-slash segment `7`, which is not a registered literal
sibling — yet the lookup consumes the wildcard sibling `{a}` (one wildcard
sibling is consumed; no backtracking), returns handler 1, and binds `a`, not
`b`. -/
theorem c6_counterexample :
    (matching c6Tree ⟨"ex", "h", "/7"⟩).map
        (fun x => (x.1.handler, mapGet x.2 "b", x.2)) =
      .ok (some 1, none, [("a", "7")]) := rfl

/-- C6 amended: additionally require that the pattern wildcard node `{n}` is
the wildcard sibling the lookup selects at its position (`firstWild`), e.g.
because it is the only wildcard sibling there. Then matching the substituted
URI succeeds with the registered handler and binds `n` to `s`. -/
theorem c6_wildcard_binds_param {H : Type} (t : RNode H) (U P : URL)
    (pre post : List String) (n s : String) (fin ni w : RNode H) (hd : H)
    (hPkeys : pathSegs P.path = pre ++ wrapBrace n :: post)
    (hUkeys : pathSegs U.path = pre ++ s :: post)
    (hUscheme : U.scheme = P.scheme) (hUhost : U.host = P.host)
    (hwalk : nodeAtKeys t (keysOf P) = some fin)
    (hhandler : fin.handler = some hd)
    (hni : nodeAtKeys t (P.scheme :: P.host :: pre) = some ni)
    (hs : lookupChild ni.child s = none)
    (hw : lookupChild ni.child (wrapBrace n) = some w)
    (hfw : firstWild ni.child = some w)
    (hwName : w.paramName = n) :
    matching t U = .ok (fin, [(n, s)]) := by
  simp only [keysOf, nodeAtKeys_cons] at hwalk hni
  cases h1 : lookupChild t.child P.scheme with
  | none => rw [h1] at hwalk; simp at hwalk
  | some r1 =>
    rw [h1] at hwalk hni
    simp only [Option.some_bind] at hwalk hni
    cases h2 : lookupChild r1.child P.host with
    | none => rw [h2] at hwalk; simp at hwalk
    | some r2 =>
      rw [h2] at hwalk hni
      simp only [Option.some_bind] at hwalk hni
      rw [hPkeys, nodeAtKeys_append, hni] at hwalk
      simp only [Option.some_bind, nodeAtKeys_cons, hw] at hwalk
      have hUne : pathSegs U.path ≠ [] := pathSegs_ne_nil U.path
      simp only [matching, hUscheme, hUhost, h1, h2, if_neg hUne, hUkeys]
      rw [matchingLoop_append_literal pre r2 ni [] hni]
      simp only [matchingLoop, hs, hfw, hwName, mapSet]
      rw [matchingLoop_literal post w fin [(n, s)] hwalk]
      simp [hhandler]

/-- Witness for the amended C6: the single pattern `ex://h/{id}` with handler
5, matched against `ex://h/42`, returns handler 5 and binds `id` to `42`. -/
theorem c6_wildcard_binds_param_witness :
    pathSegs "/{id}" = [] ++ wrapBrace "id" :: [] ∧
    pathSegs "/42" = [] ++ "42" :: [] ∧
    matching (addRoute (emptyRNode (H := Nat)) ⟨"ex", "h", "/{id}"⟩ (some 5) "")
        (⟨"ex", "h", "/42"⟩ : URL) =
      .ok (.mk [] true "id" "" (some 5), [("id", "42")]) :=
  ⟨by decide, by decide,
   c6_wildcard_binds_param
     (addRoute (emptyRNode (H := Nat)) ⟨"ex", "h", "/{id}"⟩ (some 5) "")
     ⟨"ex", "h", "/42"⟩ ⟨"ex", "h", "/{id}"⟩ [] [] "id" "42"
     (.mk [] true "id" "" (some 5))
     (.mk [("{id}", .mk [] true "id" "" (some 5))] false "" "" none)
     (.mk [] true "id" "" (some 5)) 5
     (by decide) (by decide) rfl rfl rfl rfl rfl rfl rfl rfl rfl⟩

/-! ## The change pipelines (part_017)

`uriMatches`, the subscriber states, the blocking channel sends of the
subscriber `Publish` methods, and the context-level `Publish` fan-out. -/

/-- A Go buffered channel: the buffered contents and the capacity fixed at
`make`. -/
structure Chan (α : Type) where
  buf : List α
  cap : Nat
deriving DecidableEq, Repr

/-- A blocking channel send `ch <- x`: it completes immediately exactly when
the buffer has room; `none` means the sender blocks until a receiver drains
the channel (the value is not dropped). -/
def chanSendImmediate (c : Chan α) (x : α) : Option (Chan α) :=
  if c.buf.length < c.cap then some ⟨c.buf ++ [x], c.cap⟩ else none

/-- The channel `handler.setupResourceSubscription` creates for a resource
subscription: `make(chan *url.URL, 1)` (qilin.go:1122). -/
def newResourceUpdateCh : Chan (Option URL) := ⟨[], 1⟩

/-- The channel `handler.resourceListChangeSubscription` creates:
`make(chan struct{}, 1)` (qilin.go:959). -/
def newListChangeCh : Chan Unit := ⟨[], 1⟩

/-- The per-index segment loop of `uriMatches`: the subscribed pattern
segments against the actual segments at the same indices (the caller has
already checked the lengths are equal); a `{...}` pattern segment matches any
actual segment. -/
def segsLoopMatch : List String → List String → Bool
  | _, [] => true
  | [], _ => true
  | a :: as, v :: vs => (segIsWild v || a = v) && segsLoopMatch as vs

/-- Source `uriMatches(uri, subscribedURI)` (part_017): false on nil; same scheme,
same host, same `strings.Split(Path, "/")` length, and every subscribed
segment either a wildcard or equal to the actual segment. -/
def uriMatches (uri subscribedURI : Option URL) : Bool :=
  match uri, subscribedURI with
  | some u, some p =>
    if p.scheme ≠ u.scheme then false
    else if p.host ≠ u.host then false
    else if (stringsSplitSlash u.path).length ≠ (stringsSplitSlash p.path).length then false
    else segsLoopMatch (stringsSplitSlash u.path) (stringsSplitSlash p.path)
  | _, _ => false

/-- The matching relation exactly as the spec words it: same scheme, same
host, same number of path segments, and every segment either equal or a
wildcard `{param}` segment in the pattern. -/
def uriMatchesSpec (u p : URL) : Bool :=
  decide (u.scheme = p.scheme) && decide (u.host = p.host) &&
  decide ((stringsSplitSlash u.path).length = (stringsSplitSlash p.path).length) &&
  ((stringsSplitSlash u.path).zip (stringsSplitSlash p.path)).all
    (fun x => segIsWild x.2 || decide (x.1 = x.2))

theorem segsLoopMatch_eq_zip_all (as : List String) (vs : List String)
    (h : as.length = vs.length) :
    segsLoopMatch as vs = ((as.zip vs).all fun x => segIsWild x.2 || x.1 = x.2) := by
  induction as generalizing vs with
  | nil =>
    cases vs with
    | nil => simp [segsLoopMatch]
    | cons v vs => simp at h
  | cons a as ih =>
    cases vs with
    | nil => simp at h
    | cons v vs =>
      simp only [List.length_cons, Nat.succ.injEq] at h
      simp [segsLoopMatch, List.zip_cons_cons, List.all_cons, ih vs h]

/-- Source `uriMatches` on non-nil URIs is the spec relation. -/
theorem uriMatches_eq_spec (u p : URL) :
    uriMatches (some u) (some p) = uriMatchesSpec u p := by
  unfold uriMatches uriMatchesSpec
  dsimp only
  by_cases hs : p.scheme = u.scheme
  · by_cases hh : p.host = u.host
    · by_cases hl : (stringsSplitSlash u.path).length = (stringsSplitSlash p.path).length
      · rw [if_neg (not_not.mpr hs), if_neg (not_not.mpr hh),
          if_neg (not_not.mpr hl), segsLoopMatch_eq_zip_all _ _ hl]
        have h1 : decide (u.scheme = p.scheme) = true := by simp [hs.symm]
        have h2 : decide (u.host = p.host) = true := by simp [hh.symm]
        have h3 : decide ((stringsSplitSlash u.path).length =
            (stringsSplitSlash p.path).length) = true := by simp [hl]
        rw [h1, h2, h3]
        simp
      · rw [if_neg (not_not.mpr hs), if_neg (not_not.mpr hh), if_pos hl]
        have h3 : decide ((stringsSplitSlash u.path).length =
            (stringsSplitSlash p.path).length) = false := by simp [hl]
        rw [h3]
        simp
    · rw [if_neg (not_not.mpr hs), if_pos hh]
      have h2 : decide (u.host = p.host) = false := by
        simp only [decide_eq_false_iff_not]
        exact fun h => hh h.symm
      rw [h2]
      simp
  · rw [if_pos hs]
    have h1 : decide (u.scheme = p.scheme) = false := by
      simp only [decide_eq_false_iff_not]
      exact fun h => hs h.symm
    rw [h1]
    simp

/-- Source `resourceChangeSubscriber` (part_017): identity, subscribed URI,
last-received instant and the send channel. -/
structure RCSubscriber where
  id : String
  subscribedURI : Option URL
  lastReceived : Int
  ch : Chan (Option URL)
deriving DecidableEq, Repr

/-- Source `resourceListChangeSubscriber` (part_017): identity, last-received
instant and the send channel. -/
structure RLCSubscriber where
  id : String
  lastReceived : Int
  ch : Chan Unit
deriving DecidableEq, Repr

/-- Source `resourceChangeSubscriber.Publish(uri)`: sets `lastReceived` to now and
performs a plain blocking send `r.ch <- uri`; the result is `none` when the
send cannot complete because an event is already buffered — the publisher
waits, the event is not dropped. -/
def resourceChangeSubscriberPublish (s : RCSubscriber) (now : Int) (uri : Option URL) :
    Option RCSubscriber :=
  (chanSendImmediate s.ch uri).map
    (fun c2 => { s with lastReceived := now, ch := c2 })

/-- Source `resourceListChangeSubscriber.Publish()`: sets `lastReceived` to now and
performs a plain blocking send `r.ch <- struct{}{}`. -/
def resourceListChangeSubscriberPublish (s : RLCSubscriber) (now : Int) :
    Option RLCSubscriber :=
  (chanSendImmediate s.ch ()).map
    (fun c2 => { s with lastReceived := now, ch := c2 })

/-- Source `resourceChangeContext.Publish(uri, modifiedAt)`: walks the subscriber
map, skips subscribers whose subscribed URI does not match or whose
last-received instant is after `modifiedAt`, and calls `subscriber.Publish`
on the rest; the result lists the ids of the subscribers the event was
delivered to, in walk order. -/
def resourceChangeContextPublish (subs : List RCSubscriber) (uri : Option URL)
    (modifiedAt : Int) : List String :=
  match subs with
  | [] => []
  | s :: rest =>
    if !uriMatches uri s.subscribedURI then
      resourceChangeContextPublish rest uri modifiedAt
    else if s.lastReceived > modifiedAt then
      resourceChangeContextPublish rest uri modifiedAt
    else
      s.id :: resourceChangeContextPublish rest uri modifiedAt

/-! ## C4: publish delivers to exactly the matching, fresh subscribers -/

/-- The delivery condition as the claim words it: the subscribed pattern
matches the concrete URI in the spec sense and the last-received instant is
not after the publish instant. -/
def deliveredPred (uri : Option URL) (t : Int) (s : RCSubscriber) : Bool :=
  (match uri, s.subscribedURI with
   | some u, some p => uriMatchesSpec u p
   | _, _ => false) && decide (s.lastReceived ≤ t)

theorem deliveredPred_eq (uri : Option URL) (t : Int) (s : RCSubscriber) :
    deliveredPred uri t s =
      (uriMatches uri s.subscribedURI && decide (s.lastReceived ≤ t)) := by
  unfold deliveredPred
  congr 1
  cases uri with
  | none => cases s.subscribedURI <;> rfl
  | some u =>
    cases s.subscribedURI with
    | none => rfl
    | some p => exact (uriMatches_eq_spec u p).symm

/-- C4: `Publish(URI, T)` delivers the event to exactly those subscribers
whose subscribed pattern matches the concrete URI in the spec sense (same
scheme, same host, same segment count, every segment equal or a wildcard in
the pattern) and whose last-received instant is not after `T`, and to no
others. -/
theorem c4_publish_delivers_exactly (subs : List RCSubscriber) (uri : Option URL)
    (t : Int) :
    resourceChangeContextPublish subs uri t =
      (subs.filter (deliveredPred uri t)).map (fun s => s.id) := by
  induction subs with
  | nil => rfl
  | cons s rest ih =>
    rw [List.filter_cons, deliveredPred_eq]
    simp only [resourceChangeContextPublish]
    cases hm : uriMatches uri s.subscribedURI with
    | false => simp [hm, ih]
    | true =>
      by_cases hl : s.lastReceived > t
      · have h2 : decide (s.lastReceived ≤ t) = false := by
          simp only [decide_eq_false_iff_not]
          omega
        rw [if_neg (by simp [hm])]
        rw [if_pos hl, h2]
        simp [ih]
      · have h2 : decide (s.lastReceived ≤ t) = true := by
          simp only [decide_eq_true_eq]
          omega
        rw [if_neg (by simp [hm])]
        rw [if_neg hl, h2]
        simp [ih]

/-! ## C2: publish is a blocking send on a buffer-1 channel -/

/-- C2 is false as stated: a subscriber channel (buffer 1) already holding a
pending event makes the next `Publish` block the publisher — the send cannot
complete and the event is not dropped — for both the resource-change and the
resource-list-change subscriber. -/
theorem c2_counterexample :
    resourceChangeSubscriberPublish
        ⟨"u1", some ⟨"ex", "h", "/a"⟩, 0, ⟨[some ⟨"ex", "h", "/a"⟩], 1⟩⟩ 1
        (some ⟨"ex", "h", "/a"⟩) = none ∧
    resourceListChangeSubscriberPublish ⟨"u2", 0, ⟨[()], 1⟩⟩ 1 = none := by
  constructor <;> rfl

/-- C2 amended: both subscriber channels are created with buffer 1; a publish
that finds room in the buffer completes immediately with the event buffered
and `lastReceived` updated; a publish that finds the buffer full blocks the
publisher (it neither returns immediately nor drops the event). -/
theorem c2_publish_blocking_buffer_one (s : RCSubscriber) (now : Int)
    (uri : Option URL) (l : RLCSubscriber) :
    newResourceUpdateCh.cap = 1 ∧ newListChangeCh.cap = 1 ∧
    (s.ch.buf.length < s.ch.cap →
      resourceChangeSubscriberPublish s now uri =
        some { s with lastReceived := now, ch := ⟨s.ch.buf ++ [uri], s.ch.cap⟩ }) ∧
    (¬ s.ch.buf.length < s.ch.cap →
      resourceChangeSubscriberPublish s now uri = none) ∧
    (l.ch.buf.length < l.ch.cap →
      resourceListChangeSubscriberPublish l now =
        some { l with lastReceived := now, ch := ⟨l.ch.buf ++ [()], l.ch.cap⟩ }) ∧
    (¬ l.ch.buf.length < l.ch.cap →
      resourceListChangeSubscriberPublish l now = none) := by
  refine ⟨rfl, rfl, ?_, ?_, ?_, ?_⟩ <;> intro h
  · unfold resourceChangeSubscriberPublish chanSendImmediate
    rw [if_pos h]
    rfl
  · unfold resourceChangeSubscriberPublish chanSendImmediate
    rw [if_neg h]
    rfl
  · unfold resourceListChangeSubscriberPublish chanSendImmediate
    rw [if_pos h]
    rfl
  · unfold resourceListChangeSubscriberPublish chanSendImmediate
    rw [if_neg h]
    rfl

/-- Witness for the amended C2 at concrete subscribers: an empty buffer
accepts the event; a full buffer blocks. -/
theorem c2_publish_blocking_buffer_one_witness :
    ((⟨"u3", none, 0, ⟨[], 1⟩⟩ : RCSubscriber).ch.buf.length <
        (⟨"u3", none, 0, ⟨[], 1⟩⟩ : RCSubscriber).ch.cap →
      resourceChangeSubscriberPublish ⟨"u3", none, 0, ⟨[], 1⟩⟩ 2 none =
        some { (⟨"u3", none, 0, ⟨[], 1⟩⟩ : RCSubscriber) with
                lastReceived := 2, ch := ⟨[] ++ [none], 1⟩ }) ∧
    (¬ (⟨"u4", 0, ⟨[()], 1⟩⟩ : RLCSubscriber).ch.buf.length <
        (⟨"u4", 0, ⟨[()], 1⟩⟩ : RLCSubscriber).ch.cap →
      resourceListChangeSubscriberPublish ⟨"u4", 0, ⟨[()], 1⟩⟩ 2 = none) :=
  ⟨(c2_publish_blocking_buffer_one ⟨"u3", none, 0, ⟨[], 1⟩⟩ 2 none
      ⟨"u4", 0, ⟨[()], 1⟩⟩).2.2.1,
   (c2_publish_blocking_buffer_one ⟨"u3", none, 0, ⟨[], 1⟩⟩ 2 none
      ⟨"u4", 0, ⟨[()], 1⟩⟩).2.2.2.2.2⟩

/-! ## C1: resource-list-change subscription Health (part_008) -/

/-- Generic Go string-keyed map lookup as an association list. -/
def lookupStr : List (String × α) → String → Option α
  | [], _ => none
  | (k, v) :: rest, key => if k = key then some v else lookupStr rest key

/-- Source `InMemorySubscription` (part_008): the last-alive stamp and whether the
subscription context has been cancelled. -/
structure InMemorySubscriptionM where
  lastHealthChecked : Int
  cancelled : Bool
deriving DecidableEq, Repr

/-- Source `InMemorySubscription.LastAliveTime` (part_008:178-183). -/
def lastAliveTime (s : InMemorySubscriptionM) : Int :=
  s.lastHealthChecked

/-- Source `InMemoryResourceListChangeSubscriptionStore.Get`: map lookup by session
ID; the not-found error it returns alongside nil is discarded by `Health`. -/
def rlcStoreGet (store : List (String × InMemorySubscriptionM)) (sessionID : String) :
    Option InMemorySubscriptionM :=
  lookupStr store sessionID

/-- The outcome of `Health`: a Go `(bool, error)` pair — the error slot
records whether it is `ErrResourceListChangeSubscriptionNotFound` — or the
nil-pointer dereference the body runs into. -/
inductive HealthOutcome where
  | ret (healthy : Bool) (notFoundErr : Bool)
  | nilPanic
deriving DecidableEq, Repr

/-- Source `resourceListChangeSubscriptionManager.Health` (part_008:545-554),
verbatim: the fetched subscription is tested with `if subscription != nil`,
so an EXISTING subscription returns
`(false, ErrResourceListChangeSubscriptionNotFound)`, while a missing one
falls through to `now.Sub(subscription.LastAliveTime()) > interval` on the
nil subscription — a nil-pointer dereference (note also the flipped
comparison: the expression is staleness, not health). -/
def resourceListChangeSubscriptionManagerHealth (now interval : Int)
    (store : List (String × InMemorySubscriptionM)) (sessionID : String) :
    HealthOutcome :=
  match rlcStoreGet store sessionID with
  | some _ => .ret false true
  | none => .nilPanic

/-- The health predicate exactly as the claim (and §4.D of the spec) states
it: `healthy := now - lastAlive ≤ healthInterval`. -/
def healthyIntended (now interval lastAlive : Int) : Bool :=
  decide (now - lastAlive ≤ interval)

/-- C1 fails on the code: at `now = 100`, `interval = 60`, a session `s`
whose subscription was just touched (`lastAlive = 100`) is healthy per the
claim (`healthyIntended = true`), yet `Health` returns
`(false, ErrResourceListChangeSubscriptionNotFound)`; and for a session with
no subscription, instead of a plain error return, the body dereferences the
nil subscription. -/
theorem c1_health_code_bug :
    resourceListChangeSubscriptionManagerHealth 100 60
        [("s", ⟨100, false⟩)] "s" = .ret false true ∧
    healthyIntended 100 60 100 = true ∧
    resourceListChangeSubscriptionManagerHealth 100 60 [] "s" = .nilPanic :=
  ⟨rfl, rfl, rfl⟩

/-! ## C7: protocol version negotiation (types.go, qilin.go:933-936) -/

def LatestProtocolVersion : String := "2025-03-26"

/-- Source `SupportedProtocolVersions` (types.go): the Go map with the three
supported versions bound to true; reading an absent key yields false. -/
def SupportedProtocolVersions (v : String) : Bool :=
  (lookupStr [(LatestProtocolVersion, true), ("2024-11-05", true), ("2024-10-07", true)] v).getD
    false

/-- The protocol-version field of the `initialize` result. -/
structure InitializeResultM where
  protocolVersion : String
deriving DecidableEq, Repr

/-- The version negotiation of `handler.handleInitialize`: echo the requested
version when `SupportedProtocolVersions` holds it, otherwise answer
`LatestProtocolVersion`. -/
def handleInitializeResult (requested : String) : InitializeResultM :=
  ⟨if SupportedProtocolVersions requested then requested else LatestProtocolVersion⟩

/-- C7: for each of the three recognised versions the initialize result
echoes that exact version; for every other requested string it carries
`2025-03-26`. -/
theorem c7_version_negotiation :
    (∀ v, (v = "2024-10-07" ∨ v = "2024-11-05" ∨ v = "2025-03-26") →
      handleInitializeResult v = ⟨v⟩) ∧
    (∀ v, v ≠ "2024-10-07" → v ≠ "2024-11-05" → v ≠ "2025-03-26" →
      handleInitializeResult v = ⟨"2025-03-26"⟩) := by
  constructor
  · rintro v (rfl | rfl | rfl) <;> rfl
  · intro v h1 h2 h3
    have k1 : ¬ ("2024-10-07" = v) := fun h => h1 h.symm
    have k2 : ¬ ("2024-11-05" = v) := fun h => h2 h.symm
    have k3 : ¬ ("2025-03-26" = v) := fun h => h3 h.symm
    simp [handleInitializeResult, SupportedProtocolVersions, LatestProtocolVersion,
      lookupStr, k1, k2, k3]

/-- Witness for C7: a supported version is echoed, an unsupported one gets
the latest. -/
theorem c7_version_negotiation_witness :
    handleInitializeResult "2024-11-05" = ⟨"2024-11-05"⟩ ∧
    handleInitializeResult "1.0" = ⟨"2025-03-26"⟩ :=
  ⟨c7_version_negotiation.1 "2024-11-05" (Or.inr (Or.inl rfl)),
   c7_version_negotiation.2 "1.0" (by decide) (by decide) (by decide)⟩

/-! ## C8: only initialize is legal before a session is latched
(qilin.go:835-854, part_013) -/

/-- The JSON-RPC error values of the wrapped jsonrpc2 library that the
dispatcher returns, named through their contract. -/
inductive RpcErr where
  | unknown
  | methodNotFound
  | invalidParams
deriving DecidableEq, Repr

/-- Modelled from the spec: the JSON-RPC error-code table of §6 for the
wrapped jsonrpc2 framing library, which is an external dependency not under
src/ — the server-specific `unknown` is −32001, method-not-found −32601,
invalid-params −32602. -/
def rpcErrCode : RpcErr → Int
  | .unknown => -32001
  | .methodNotFound => -32601
  | .invalidParams => -32602

/-- Source `Stdio.SetSessionID` (part_013): latches the first session ID set; later
calls are ignored. A connection that has seen no successful initialize
reports the empty session ID. -/
def stdioSetSessionID (current newID : String) : String :=
  if current = "" then newID else current

/-- Source `handler.Handle` (qilin.go:835-854): the method `initialize` goes to
`handleInitialize`; every other method first reads the latched session ID
and returns `jsonrpc2.ErrUnknown` when it is empty, and only otherwise
reaches `invokeMethod`. The initialize path and `invokeMethod` enter as the
abstract parameters `onInit` and `invokeMethodF`: the claim is settled for
every behaviour of the downstream handlers. -/
def handleRequest (latchedSessionID : String) (method : String)
    (onInit : Except RpcErr Unit) (invokeMethodF : String → Except RpcErr Unit) :
    Except RpcErr Unit :=
  if method = "initialize" then onInit
  else if latchedSessionID = "" then .error .unknown
  else invokeMethodF method

/-- C8: with no session ID latched, every non-initialize request fails with
the well-known `unknown` error (JSON-RPC code −32001), whatever the
downstream dispatch would do — so no tool, resource or list handler is
invoked. -/
theorem c8_unknown_before_init (method : String) (onInit : Except RpcErr Unit)
    (invokeMethodF : String → Except RpcErr Unit) (h : method ≠ "initialize") :
    handleRequest "" method onInit invokeMethodF = .error .unknown ∧
      rpcErrCode .unknown = -32001 := by
  unfold handleRequest
  rw [if_neg h, if_pos rfl]
  exact ⟨rfl, rfl⟩

/-- Witness for C8 at the method `ping`. -/
theorem c8_unknown_before_init_witness :
    handleRequest "" "ping" (.ok ()) (fun _ => .ok ()) = .error .unknown ∧
      rpcErrCode .unknown = -32001 :=
  c8_unknown_before_init "ping" (.ok ()) (fun _ => .ok ()) (by decide)

/-! ## C9, C10: tools/call (qilin.go:1070-1098, errors.go) -/

/-- Source `callToolRequestParams` after JSON decoding: tool name and raw argument
bytes. -/
structure CallToolParamsM where
  name : String
  arguments : String
deriving DecidableEq, Repr

/-- A registered tool reduced to its handler: raw arguments to either a
handler error or the content written into the call-tool destination. -/
structure ToolM where
  handler : String → Except String String

/-- Source `fmt.Errorf(ErrorMessageFailedToHandleTool, name, err)` with the format
constant `"failed to handle Tool (name: %s): %w"` (errors.go). -/
def errorMessageFailedToHandleTool (name err : String) : String :=
  "failed to handle Tool (name: " ++ name ++ "): " ++ err

/-- The JSON-RPC level outcomes of `handler.handleToolsCall`. -/
inductive ToolsCallErr where
  | invalidParams
  | toolFailed (msg : String)
deriving DecidableEq, Repr

/-- Source `handler.handleToolsCall` (qilin.go:1070-1098): params whose JSON failed
to decode arrive as `none` and yield invalid-params; an unknown tool name
yields invalid-params before any handler runs; a handler error is wrapped
with the tool name; otherwise the written content is the result. The tools
map is threaded through unchanged — the body never writes it. -/
def handleToolsCall (tools : List (String × ToolM)) (params : Option CallToolParamsM) :
    List (String × ToolM) × Except ToolsCallErr String :=
  match params with
  | none => (tools, .error .invalidParams)
  | some p =>
    match lookupStr tools p.name with
    | none => (tools, .error .invalidParams)
    | some tool =>
      match tool.handler p.arguments with
      | .error e => (tools, .error (.toolFailed (errorMessageFailedToHandleTool p.name e)))
      | .ok content => (tools, .ok content)

/-- C9: when the registered tool handler returns an error, the result of the
request is exactly the handler error wrapped as
`failed to handle Tool (name: X): <err>`, and no result content is
returned. -/
theorem c9_tool_error_wrapped (tools : List (String × ToolM)) (p : CallToolParamsM)
    (tool : ToolM) (e : String)
    (hfound : lookupStr tools p.name = some tool)
    (herr : tool.handler p.arguments = .error e) :
    handleToolsCall tools (some p) =
      (tools, .error (.toolFailed
        ("failed to handle Tool (name: " ++ p.name ++ "): " ++ e))) := by
  simp only [handleToolsCall, hfound, herr, errorMessageFailedToHandleTool]

/-- Witness for C9: the tool `add` whose handler fails with `boom` produces
exactly `failed to handle Tool (name: add): boom`. -/
theorem c9_tool_error_wrapped_witness :
    lookupStr [("add", (⟨fun _ => .error "boom"⟩ : ToolM))] "add" =
        some ⟨fun _ => .error "boom"⟩ ∧
    (⟨fun _ => .error "boom"⟩ : ToolM).handler "" = .error "boom" ∧
    handleToolsCall [("add", (⟨fun _ => .error "boom"⟩ : ToolM))]
        (some ⟨"add", ""⟩) =
      ([("add", ⟨fun _ => .error "boom"⟩)],
       .error (.toolFailed "failed to handle Tool (name: add): boom")) :=
  ⟨rfl, rfl,
   c9_tool_error_wrapped [("add", ⟨fun _ => .error "boom"⟩)] ⟨"add", ""⟩
     ⟨fun _ => .error "boom"⟩ "boom" rfl rfl⟩

/-- C10: well-formed params naming an unregistered tool yield the JSON-RPC
invalid-params error; the outcome is fixed before any handler could run, and
the tools map is returned unchanged. -/
theorem c10_unknown_tool_invalid_params (tools : List (String × ToolM))
    (p : CallToolParamsM) (hmiss : lookupStr tools p.name = none) :
    handleToolsCall tools (some p) = (tools, .error .invalidParams) := by
  simp only [handleToolsCall, hmiss]

/-- Witness for C10: calling `sub` when only `add` is registered. -/
theorem c10_unknown_tool_invalid_params_witness :
    lookupStr [("add", (⟨fun _ => .ok "x"⟩ : ToolM))] "sub" = none ∧
    handleToolsCall [("add", (⟨fun _ => .ok "x"⟩ : ToolM))] (some ⟨"sub", ""⟩) =
      ([("add", ⟨fun _ => .ok "x"⟩)], .error .invalidParams) :=
  ⟨rfl,
   c10_unknown_tool_invalid_params [("add", ⟨fun _ => .ok "x"⟩)] ⟨"sub", ""⟩ rfl⟩

/-! ## C3: the Streamable HTTP route table (streamable.go:225-234) -/

/-- The handlers `NewStreamable` registers on the HTTP mux. -/
inductive HTTPHandlerTag where
  | preflightHandler
  | serveHTTPHandler
deriving DecidableEq, Repr

/-- The route table `NewStreamable` builds: OPTIONS, GET and POST on `/mcp` —
and nothing else. -/
def streamableMuxRoutes : List ((String × String) × HTTPHandlerTag) :=
  [(("OPTIONS", "/mcp"), .preflightHandler),
   (("GET", "/mcp"), .serveHTTPHandler),
   (("POST", "/mcp"), .serveHTTPHandler)]

/-- Method-and-path dispatch over the registered routes. -/
def muxLookup (routes : List ((String × String) × HTTPHandlerTag))
    (method path : String) : Option HTTPHandlerTag :=
  match routes with
  | [] => none
  | ((m, pt), tag) :: rest =>
    if m = method ∧ pt = path then some tag else muxLookup rest method path

/-- C3 fails on the code: no handler is registered for DELETE on `/mcp` — the
registered methods are exactly OPTIONS, GET and POST — so an HTTP DELETE
request never reaches any session-terminating code and nothing answers 204
(Go `net/http.ServeMux` answers 405 when the path is registered only under
other methods). -/
theorem c3_no_delete_route :
    muxLookup streamableMuxRoutes "DELETE" "/mcp" = none ∧
      streamableMuxRoutes.map (fun r => r.1.1) = ["OPTIONS", "GET", "POST"] := by
  constructor <;> rfl

end Qilin
